import Mathlib

/-!
Verification development for the datetime MCP server (`src/index.ts`).

The formatting engine is embedded shallowly:
* instants are `Int` millisecond counts since the Unix epoch
  (`Date.getTime()`);
* the runtime's timezone database (consulted by `Intl.DateTimeFormat`)
  is a parameter `TzDB : String → Option TzRules`, where resolved rules
  give the UTC offset (in milliseconds, possibly instant-dependent);
  an unresolvable identifier makes `Intl` construction throw a
  `RangeError` whose message is modelled by `invalidTzMsg`;
* calendar decomposition of an instant uses the standard proleptic
  Gregorian civil-from-days algorithm (`civilFromMs`);
* the `numeric` year rendering of `Intl.DateTimeFormat` produces the
  era-relative year in minimal decimal digits (no zero padding), and
  `2-digit` fields are zero padded to width two with an `h23` hour
  cycle, per ECMA-402;
* fallible code returns `Except String String`.

Definitions follow the source; `layeredSpec` and `scanSub` are
spec-side definitions used for refinement comparisons.
-/

namespace DatetimeServer

/-! ## Decimal rendering of numbers (JS `Number.prototype.toString`) -/

/-- Fuel-driven decimal digit accumulator; fuel `n + 1` always suffices
for printing `n`. Structural recursion keeps it kernel-computable. -/
def natDigitsGo : Nat → Nat → List Char → List Char
  | 0, _, acc => acc
  | fuel + 1, n, acc =>
    let d := Nat.digitChar (n % 10)
    if n / 10 = 0 then d :: acc else natDigitsGo fuel (n / 10) (d :: acc)

/-- Decimal digits of a natural number, most significant first. -/
def natToDigits (n : Nat) : List Char :=
  natDigitsGo (n + 1) n []

def natToString (n : Nat) : String :=
  String.mk (natToDigits n)

/-- JS decimal rendering of an integer-valued number. -/
def intToString (i : Int) : String :=
  if i < 0 then "-" ++ natToString i.natAbs else natToString i.toNat

/-- Left-pad a character list with `'0'` up to width `k`. -/
def padZero (k : Nat) (l : List Char) : List Char :=
  List.replicate (k - l.length) '0' ++ l

/-- Two-digit zero-padded field (`Intl` option `"2-digit"`), list form. -/
def pad2L (n : Nat) : List Char :=
  padZero 2 (natToDigits n)

def pad2 (n : Nat) : String :=
  String.mk (pad2L n)

def pad3 (n : Nat) : String :=
  String.mk (padZero 3 (natToDigits n))

def pad4 (n : Nat) : String :=
  String.mk (padZero 4 (natToDigits n))

def pad6 (n : Nat) : String :=
  String.mk (padZero 6 (natToDigits n))

/-! ## Civil (proleptic Gregorian) decomposition of an instant -/

structure Civil where
  year : Int
  month : Nat
  day : Nat
  hour : Nat
  minute : Nat
  second : Nat
  msec : Nat
  deriving Repr, DecidableEq

/-- Decompose a millisecond count since the epoch into UTC calendar
fields, via the standard civil-from-days algorithm. -/
def civilFromMs (ms : Int) : Civil :=
  let days : Int := Int.ediv ms 86400000
  let msod : Nat := (Int.emod ms 86400000).toNat
  let z : Int := days + 719468
  let era : Int := Int.ediv z 146097
  let doe : Nat := (Int.emod z 146097).toNat
  let yoe : Nat := (doe - doe / 1460 + doe / 36524 - doe / 146096) / 365
  let doy : Nat := doe - (365 * yoe + yoe / 4 - yoe / 100)
  let mp : Nat := (5 * doy + 2) / 153
  let d : Nat := doy - (153 * mp + 2) / 5 + 1
  let m : Nat := if mp < 10 then mp + 3 else mp - 9
  { year := (if m ≤ 2 then 1 else 0) + (yoe : Int) + era * 400
    month := m
    day := d
    hour := msod / 3600000
    minute := msod % 3600000 / 60000
    second := msod % 60000 / 1000
    msec := msod % 1000 }

/-- Era-relative year displayed by `Intl` with `year: "numeric"` and no
era field requested: years ≤ 0 (astronomical) display as `1 - y` (BC). -/
def displayYear (y : Int) : Nat :=
  if y ≤ 0 then (1 - y).toNat else y.toNat

/-! ## Timezone model (`Intl.DateTimeFormat` with a `timeZone` option) -/

/-- Resolved timezone rules: UTC offset in milliseconds at an instant. -/
structure TzRules where
  offset : Int → Int

/-- The runtime's timezone database: identifier resolution. -/
def TzDB : Type := String → Option TzRules

def utcRules : TzRules := ⟨fun _ => 0⟩

/-- A sample database resolving only `"UTC"`, for concrete scenarios. -/
def sampleDb : TzDB := fun s => if s = "UTC" then some utcRules else none

/-- Message of the `RangeError` thrown by `Intl.DateTimeFormat` on an
unresolvable timezone identifier. -/
def invalidTzMsg (tz : String) : String :=
  "Invalid time zone specified: " ++ tz

/-- Timezone resolution of `Intl` as it surfaces to the caller: either the
rules, or the thrown error's message. -/
def resolveTz (db : TzDB) (tz : String) : Except String TzRules :=
  match db tz with
  | some r => Except.ok r
  | none => Except.error (invalidTzMsg tz)

/-- Local civil fields of an instant under resolved timezone rules. -/
def localCivil (rules : TzRules) (ms : Int) : Civil :=
  civilFromMs (ms + rules.offset ms)

/-! ## The `formatToParts` map built by `formatCustomDate` -/

/-- The six part strings the source collects into `partsMap`. -/
structure Parts where
  yr : List Char
  mo : List Char
  dy : List Char
  hr : List Char
  mi : List Char
  se : List Char

/-- The `partsMap` of `formatCustomDate`: year in minimal digits, the rest
two-digit zero-padded, hour in the 00–23 cycle (`hour12: false`). -/
def partsOf (rules : TzRules) (ms : Int) : Parts :=
  let cv := localCivil rules ms
  { yr := natToDigits (displayYear cv.year)
    mo := pad2L cv.month
    dy := pad2L cv.day
    hr := pad2L cv.hour
    mi := pad2L cv.minute
    se := pad2L cv.second }

/-! ## Global regex replacement (JS `String.prototype.replace` with a
global literal pattern): left-to-right, non-overlapping. -/

/-- One global replacement pass. The pattern is `p :: ps` (nonempty by
construction). Fuel equals the length of the remaining input, so the
zero-fuel branch is unreachable from `repl` and the definition is
structurally recursive (hence kernel-computable). -/
def replGo (p : Char) (ps rep : List Char) : Nat → List Char → List Char
  | 0, l => l
  | _ + 1, [] => []
  | n + 1, c :: cs =>
    if p = c ∧ ps.isPrefixOf cs then
      rep ++ replGo p ps rep n (cs.drop ps.length)
    else
      c :: replGo p ps rep n cs

/-- JS `str.replace(/pat/g, rep)` for the literal pattern `p :: ps`. -/
def repl (p : Char) (ps rep l : List Char) : List Char :=
  replGo p ps rep l.length l

/-- JS `slice(-2)`: the last two characters (all of them if fewer). -/
def lastTwo (l : List Char) : List Char :=
  l.drop (l.length - 2)

/-- The chained replacement of `formatCustomDate`, applied in source
order: `YYYY`, `YY`, `MM`, `DD`, `HH`, `mm`, `ss`. -/
def customReplace (P : Parts) (t : List Char) : List Char :=
  repl 's' ['s'] P.se
    (repl 'm' ['m'] P.mi
      (repl 'H' ['H'] P.hr
        (repl 'D' ['D'] P.dy
          (repl 'M' ['M'] P.mo
            (repl 'Y' ['Y'] (lastTwo P.yr)
              (repl 'Y' ['Y', 'Y', 'Y'] P.yr t))))))

/-- Body of the source `formatCustomDate` once the timezone resolved. -/
def customRender (rules : TzRules) (ms : Int) (formatString : String) : String :=
  String.mk (customReplace (partsOf rules ms) formatString.toList)

/-! ## Spec-side scanner for the token mini-language.

Modelled from the spec's words: "Scan the template and replace
non-overlapping token occurrences", trying `YYYY` before `YY`; any
other substring is emitted verbatim. -/

/-- Does the list start with two copies of `a`? -/
def startsTok (a : Char) : List Char → Bool
  | x :: y :: _ => x == a && y == a
  | _ => false

/-- Does the list start with four copies of `a`? -/
def startsTok4 (a : Char) : List Char → Bool
  | x :: y :: z :: w :: _ => x == a && y == a && z == a && w == a
  | _ => false

/-- Single left-to-right scan, replacing each token occurrence at the
current position (longest `Y`-token first) and copying other
characters verbatim. Fuel equals the remaining length. -/
def scanGo (P : Parts) : Nat → List Char → List Char
  | 0, t => t
  | _ + 1, [] => []
  | n + 1, c :: cs =>
    if startsTok4 'Y' (c :: cs) then P.yr ++ scanGo P n (cs.drop 3)
    else if startsTok 'Y' (c :: cs) then lastTwo P.yr ++ scanGo P n (cs.drop 1)
    else if startsTok 'M' (c :: cs) then P.mo ++ scanGo P n (cs.drop 1)
    else if startsTok 'D' (c :: cs) then P.dy ++ scanGo P n (cs.drop 1)
    else if startsTok 'H' (c :: cs) then P.hr ++ scanGo P n (cs.drop 1)
    else if startsTok 'm' (c :: cs) then P.mi ++ scanGo P n (cs.drop 1)
    else if startsTok 's' (c :: cs) then P.se ++ scanGo P n (cs.drop 1)
    else c :: scanGo P n cs

/-- Spec-side scanner over a whole template. -/
def scanSub (P : Parts) (t : List Char) : List Char :=
  scanGo P t.length t

/-! ## The remaining format selectors -/

/-- Year field of `Date.prototype.toISOString`: four digits for
0–9999, otherwise a sign and six digits (expanded years). -/
def isoYearField (y : Int) : String :=
  if 0 ≤ y ∧ y ≤ 9999 then pad4 y.toNat
  else if y < 0 then "-" ++ pad6 y.natAbs
  else "+" ++ pad6 y.toNat

/-- JS `date.toISOString()`: UTC, millisecond precision. -/
def isoString (ms : Int) : String :=
  let cv := civilFromMs ms
  isoYearField cv.year ++ "-" ++ pad2 cv.month ++ "-" ++ pad2 cv.day ++ "T" ++
    pad2 cv.hour ++ ":" ++ pad2 cv.minute ++ ":" ++ pad2 cv.second ++ "." ++
    pad3 cv.msec ++ "Z"

def weekdayNames : List String :=
  ["Sun", "Mon", "Tue", "Wed", "Thu", "Fri", "Sat"]

def monthNames : List String :=
  ["Jan", "Feb", "Mar", "Apr", "May", "Jun", "Jul", "Aug", "Sep", "Oct", "Nov", "Dec"]

/-- Day-of-week index of a local instant (1970-01-01 was a Thursday). -/
def weekdayIdx (localMs : Int) : Nat :=
  (Int.emod (Int.ediv localMs 86400000 + 4) 7).toNat

def hour12Of (h : Nat) : Nat :=
  if h % 12 = 0 then 12 else h % 12

def ampmOf (h : Nat) : String :=
  if h < 12 then "AM" else "PM"

/-- JS `toLocaleString("en-US", ...)` with short weekday/month, numeric
day/year, two-digit 12-hour clock fields. -/
def humanString (rules : TzRules) (ms : Int) : String :=
  let lms := ms + rules.offset ms
  let cv := civilFromMs lms
  (weekdayNames.getD (weekdayIdx lms) "") ++ ", " ++
    (monthNames.getD (cv.month - 1) "") ++ " " ++ natToString cv.day ++ ", " ++
    natToString (displayYear cv.year) ++ ", " ++
    pad2 (hour12Of cv.hour) ++ ":" ++ pad2 cv.minute ++ ":" ++ pad2 cv.second ++
    " " ++ ampmOf cv.hour

/-- JS `toLocaleDateString("en-CA", ...)`: `YYYY-MM-DD` ordering. -/
def dateString (rules : TzRules) (ms : Int) : String :=
  let cv := localCivil rules ms
  natToString (displayYear cv.year) ++ "-" ++ pad2 cv.month ++ "-" ++ pad2 cv.day

/-- JS `toLocaleTimeString("en-US", ...)` with `hour12: false`. -/
def timeString (rules : TzRules) (ms : Int) : String :=
  let cv := localCivil rules ms
  pad2 cv.hour ++ ":" ++ pad2 cv.minute ++ ":" ++ pad2 cv.second

/-! ## Process-wide configuration (environment variables) -/

structure Config where
  envDatetimeFormat : Option String
  envDateFormatString : Option String
  envTimezone : Option String
  hostTimezone : String

/-- JS `x || d` for an optional environment/argument string: the
left operand wins unless it is absent or empty (falsy). -/
def jsOr (v : Option String) (d : String) : String :=
  match v with
  | some s => if s = "" then d else s
  | none => d

def DATETIME_FORMAT (cfg : Config) : String :=
  jsOr cfg.envDatetimeFormat "iso"

def DATE_FORMAT_STRING (cfg : Config) : String :=
  jsOr cfg.envDateFormatString "YYYY-MM-DD HH:mm:ss"

def TIMEZONE (cfg : Config) : String :=
  jsOr cfg.envTimezone cfg.hostTimezone

/-! ## The formatting engine (`formatDateTime`, `formatCustomDate`) -/

/-- Source `formatCustomDate(date, formatString, timezone)`: builds an
`Intl.DateTimeFormat` (which may throw on a bad timezone), then runs
the chained token replacement. -/
def formatCustomDate (db : TzDB) (ms : Int) (formatString : String)
    (timezone : String) : Except String String :=
  (resolveTz db timezone).map (fun rules => customRender rules ms formatString)

/-- Source `formatDateTime(date, format, timezone)`: the `switch` over
the format selector, with the documented fall-through to ISO. -/
def formatDateTime (cfg : Config) (db : TzDB) (ms : Int) (format : String)
    (timezone : String) : Except String String :=
  if format = "iso" then Except.ok (isoString ms)
  else if format = "unix" then Except.ok (intToString (Int.fdiv ms 1000))
  else if format = "unix_ms" then Except.ok (intToString ms)
  else if format = "human" then (resolveTz db timezone).map (fun r => humanString r ms)
  else if format = "date" then (resolveTz db timezone).map (fun r => dateString r ms)
  else if format = "time" then (resolveTz db timezone).map (fun r => timeString r ms)
  else if format = "custom" then formatCustomDate db ms (DATE_FORMAT_STRING cfg) timezone
  else Except.ok (isoString ms)

/-! ## Tool handlers -/

/-- Arguments of a `get_current_time` call. `extra` carries any
additional fields a caller may send; the source reads only `format`
and `timezone`. -/
structure CallArgs where
  format : Option String
  timezone : Option String
  extra : List (String × String)

structure ToolResult where
  text : String
  isError : Bool
  deriving DecidableEq

/-- Source `(args as any)?.format || DATETIME_FORMAT`. -/
def resolveFormat (cfg : Config) (args : Option CallArgs) : String :=
  jsOr (args.bind CallArgs.format) (DATETIME_FORMAT cfg)

/-- Source `(args as any)?.timezone || TIMEZONE`. -/
def resolveTimezone (cfg : Config) (args : Option CallArgs) : String :=
  jsOr (args.bind CallArgs.timezone) (TIMEZONE cfg)

/-- The `get_current_time` branch of the tool-call handler, with its
`try`/`catch` wrapping of the formatting error. -/
def handleGetCurrentTime (cfg : Config) (db : TzDB) (ms : Int)
    (args : Option CallArgs) : ToolResult :=
  match formatDateTime cfg db ms (resolveFormat cfg args) (resolveTimezone cfg args) with
  | Except.ok s => { text := s, isError := false }
  | Except.error m => { text := "Error formatting date: " ++ m, isError := true }

/-- Arguments of a `get_timestamp` call. -/
structure TimestampArgs where
  unit : Option String
  extra : List (String × String)

/-- The `get_timestamp` branch of the tool-call handler. -/
def handleGetTimestamp (ms : Int) (args : Option TimestampArgs) : ToolResult :=
  let unit := jsOr (args.bind TimestampArgs.unit) "seconds"
  let ts := if unit = "milliseconds" then ms else Int.fdiv ms 1000
  { text := intToString ts, isError := false }

/-- Spec-side three-layer resolution, following the spec's words:
the per-call value, if present and non-empty, wins; otherwise the
process-wide (environment) default, if present and non-empty;
otherwise the built-in fallback. -/
def layeredSpec (call env : Option String) (fallback : String) : String :=
  match call with
  | some s =>
    if s ≠ "" then s
    else
      match env with
      | some e => if e ≠ "" then e else fallback
      | none => fallback
  | none =>
    match env with
    | some e => if e ≠ "" then e else fallback
    | none => fallback

/-- A concrete configuration with no environment overrides. -/
def cfg0 : Config :=
  { envDatetimeFormat := none
    envDateFormatString := none
    envTimezone := none
    hostTimezone := "UTC" }

/-- A concrete configuration whose process-wide default format is
`custom`. -/
def cfgCustom : Config :=
  { envDatetimeFormat := some "custom"
    envDateFormatString := none
    envTimezone := none
    hostTimezone := "UTC" }

/-! ## Auxiliary predicates used by the statements and proofs -/

/-- The six letters occurring in tokens of the custom mini-language. -/
def tokenChars : List Char := ['Y', 'M', 'D', 'H', 'm', 's']

def digitChars : List Char := ['0', '1', '2', '3', '4', '5', '6', '7', '8', '9']

/-- Is `a` the first character of the list? -/
def headIs (a : Char) : List Char → Bool
  | c :: _ => a == c
  | [] => false

/-- A replacement component: nonempty and free of token letters. -/
def OkL (l : List Char) : Prop :=
  l ≠ [] ∧ ∀ c ∈ l, c ∉ tokenChars

def OkParts (P : Parts) : Prop :=
  OkL P.yr ∧ OkL P.mo ∧ OkL P.dy ∧ OkL P.hr ∧ OkL P.mi ∧ OkL P.se

/-- The format selectors whose rendering consults the timezone. -/
def tzConsulting (format : String) : Prop :=
  format = "human" ∨ format = "date" ∨ format = "time" ∨ format = "custom"

/-- Hour-of-day of an instant in a resolved timezone. -/
def localHour (rules : TzRules) (ms : Int) : Nat :=
  (localCivil rules ms).hour

/-! ## Basic lemmas about the replacement pass -/

theorem replGo_nil (p : Char) (ps rep : List Char) (n : Nat) :
    replGo p ps rep n [] = [] := by
  cases n <;> rfl

theorem replGo_congr (p : Char) (ps rep : List Char) :
    ∀ (n : Nat) (l : List Char) (m : Nat), l.length ≤ n → l.length ≤ m →
      replGo p ps rep n l = replGo p ps rep m l := by
  intro n
  induction n with
  | zero =>
    intro l m hn _
    have : l = [] := List.eq_nil_of_length_eq_zero (Nat.le_zero.mp hn)
    subst this
    rw [replGo_nil, replGo_nil]
  | succ n ih =>
    intro l m hn hm
    cases l with
    | nil => rw [replGo_nil, replGo_nil]
    | cons c cs =>
      obtain ⟨m', rfl⟩ : ∃ m', m = m' + 1 := by
        cases m with
        | zero => simp at hm
        | succ k => exact ⟨k, rfl⟩
      simp only [List.length_cons, Nat.add_le_add_iff_right] at hn hm
      simp only [replGo]
      by_cases hmatch : p = c ∧ ps.isPrefixOf cs
      · rw [if_pos hmatch, if_pos hmatch]
        have hd : (cs.drop ps.length).length ≤ cs.length := by
          rw [List.length_drop]; omega
        rw [ih (cs.drop ps.length) m' (le_trans hd hn) (le_trans hd hm)]
      · rw [if_neg hmatch, if_neg hmatch, ih cs m' hn hm]

theorem repl_nil (p : Char) (ps rep : List Char) : repl p ps rep [] = [] :=
  rfl

theorem repl_cons_pos {p c : Char} {ps cs : List Char} (rep : List Char)
    (h1 : p = c) (h2 : ps.isPrefixOf cs) :
    repl p ps rep (c :: cs) = rep ++ repl p ps rep (cs.drop ps.length) := by
  show replGo p ps rep (cs.length + 1) (c :: cs) = _
  simp only [replGo, if_pos (And.intro h1 h2)]
  rw [repl]
  congr 1
  exact replGo_congr p ps rep cs.length (cs.drop ps.length) (cs.drop ps.length).length
    (by rw [List.length_drop]; omega) le_rfl

theorem repl_cons_neg {p c : Char} {ps cs : List Char} (rep : List Char)
    (h : ¬(p = c ∧ ps.isPrefixOf cs)) :
    repl p ps rep (c :: cs) = c :: repl p ps rep cs := by
  show replGo p ps rep (cs.length + 1) (c :: cs) = _
  rw [repl]
  simp only [replGo, if_neg h]

theorem repl_append {p : Char} {ps rep a b : List Char} (ha : p ∉ a) :
    repl p ps rep (a ++ b) = a ++ repl p ps rep b := by
  induction a with
  | nil => simp
  | cons x a ih =>
    have hx : p ≠ x := fun e => ha (e ▸ List.mem_cons_self x a)
    rw [List.cons_append, repl_cons_neg rep (fun hc => hx hc.1),
      ih (fun hm => ha (List.mem_cons_of_mem _ hm)), List.cons_append]

theorem isPrefixOf_head {p : Char} {ps l : List Char}
    (h : (p :: ps).isPrefixOf l) : headIs p l = true := by
  cases l with
  | nil => simp [List.isPrefixOf] at h
  | cons x xs =>
    simp only [List.isPrefixOf, Bool.and_eq_true] at h
    simp [headIs, h.1]

theorem repl_headIs {p d : Char} {ps rep l : List Char} (hrep : OkL rep)
    (hdt : d ∈ tokenChars) (hl : headIs d l = false) :
    headIs d (repl p ps rep l) = false := by
  cases l with
  | nil => rw [repl_nil]; rfl
  | cons c cs =>
    by_cases hm : p = c ∧ ps.isPrefixOf cs
    · rw [repl_cons_pos rep hm.1 hm.2]
      cases hr : rep with
      | nil => exact absurd hr hrep.1
      | cons r rs =>
        have : d ≠ r := fun e => hrep.2 r (hr ▸ List.mem_cons_self r rs) (e ▸ hdt)
        simp [headIs, this]
    · rw [repl_cons_neg rep hm]
      exact hl

/-! ## Digit strings are valid replacement components -/

theorem digitChar_mem_digitChars (n : Nat) (h : n < 10) :
    Nat.digitChar n ∈ digitChars := by
  interval_cases n <;> decide

theorem natDigitsGo_mem (fuel : Nat) :
    ∀ (n : Nat) (acc : List Char), (∀ c ∈ acc, c ∈ digitChars) →
      ∀ c ∈ natDigitsGo fuel n acc, c ∈ digitChars := by
  induction fuel with
  | zero => intro n acc h c hc; exact h c hc
  | succ f ih =>
    intro n acc h c hc
    have hacc : ∀ c ∈ Nat.digitChar (n % 10) :: acc, c ∈ digitChars := by
      intro x hx
      rcases List.mem_cons.mp hx with he | hm
      · exact he ▸ digitChar_mem_digitChars _ (Nat.mod_lt n (by omega))
      · exact h x hm
    simp only [natDigitsGo] at hc
    by_cases h0 : n / 10 = 0
    · rw [if_pos h0] at hc
      exact hacc c hc
    · rw [if_neg h0] at hc
      exact ih (n / 10) _ hacc c hc

theorem natToDigits_mem (n : Nat) : ∀ c ∈ natToDigits n, c ∈ digitChars :=
  natDigitsGo_mem (n + 1) n [] (by intro c hc; simp at hc)

theorem natDigitsGo_ne_nil_of_acc (fuel : Nat) :
    ∀ (n : Nat) (acc : List Char), acc ≠ [] → natDigitsGo fuel n acc ≠ [] := by
  induction fuel with
  | zero => intro n acc h; exact h
  | succ f ih =>
    intro n acc h
    simp only [natDigitsGo]
    by_cases h0 : n / 10 = 0
    · rw [if_pos h0]; exact List.cons_ne_nil _ _
    · rw [if_neg h0]; exact ih (n / 10) _ (List.cons_ne_nil _ _)

theorem natToDigits_ne_nil (n : Nat) : natToDigits n ≠ [] := by
  show natDigitsGo (n + 1) n [] ≠ []
  simp only [natDigitsGo]
  by_cases h0 : n / 10 = 0
  · rw [if_pos h0]; exact List.cons_ne_nil _ _
  · rw [if_neg h0]; exact natDigitsGo_ne_nil_of_acc n (n / 10) _ (List.cons_ne_nil _ _)

theorem digit_not_token {c : Char} (h : c ∈ digitChars) : c ∉ tokenChars := by
  fin_cases h <;> decide

theorem okL_natToDigits (n : Nat) : OkL (natToDigits n) :=
  ⟨natToDigits_ne_nil n, fun c hc => digit_not_token (natToDigits_mem n c hc)⟩

theorem okL_padZero {k n : Nat} : OkL (padZero k (natToDigits n)) := by
  constructor
  · intro h
    rcases List.append_eq_nil.mp h with ⟨_, h2⟩
    exact natToDigits_ne_nil n h2
  · intro c hc
    rcases List.mem_append.mp hc with hm | hm
    · have : c = '0' := List.eq_of_mem_replicate hm
      exact this ▸ (by decide)
    · exact digit_not_token (natToDigits_mem n c hm)

theorem okL_pad2L (n : Nat) : OkL (pad2L n) :=
  okL_padZero

theorem okL_lastTwo {l : List Char} (h : OkL l) : OkL (lastTwo l) := by
  constructor
  · intro he
    have hlen : l.length ≠ 0 := fun h0 => h.1 (List.eq_nil_of_length_eq_zero h0)
    have : (lastTwo l).length = 0 := he ▸ rfl
    rw [lastTwo, List.length_drop] at this
    omega
  · intro c hc
    exact h.2 c (List.mem_of_mem_drop hc)

theorem okParts_partsOf (rules : TzRules) (ms : Int) : OkParts (partsOf rules ms) :=
  ⟨okL_natToDigits _, okL_pad2L _, okL_pad2L _, okL_pad2L _, okL_pad2L _, okL_pad2L _⟩

/-! ## Shape lemmas for token tests -/

theorem startsTok_shape {a : Char} {l : List Char} (h : startsTok a l = true) :
    ∃ rest, l = a :: a :: rest := by
  match l with
  | [] => simp [startsTok] at h
  | [x] => simp [startsTok] at h
  | x :: y :: rest =>
    simp only [startsTok, Bool.and_eq_true, beq_iff_eq] at h
    exact ⟨rest, by rw [h.1, h.2]⟩

theorem startsTok4_shape {a : Char} {l : List Char} (h : startsTok4 a l = true) :
    ∃ rest, l = a :: a :: a :: a :: rest := by
  match l with
  | [] => simp [startsTok4] at h
  | [x] => simp [startsTok4] at h
  | [x, y] => simp [startsTok4] at h
  | [x, y, z] => simp [startsTok4] at h
  | x :: y :: z :: w :: rest =>
    simp only [startsTok4, Bool.and_eq_true, beq_iff_eq] at h
    obtain ⟨⟨⟨h1, h2⟩, h3⟩, h4⟩ := h
    exact ⟨rest, by rw [h1, h2, h3, h4]⟩

theorem startsTok_cons_self (a : Char) (cs : List Char) :
    startsTok a (a :: cs) = headIs a cs := by
  cases cs with
  | nil => simp [startsTok, headIs]
  | cons x xs => simp [startsTok, headIs, eq_comm]

theorem startsTok4_cons2 (a : Char) (cs : List Char) :
    startsTok4 a (a :: a :: cs) = startsTok a cs := by
  match cs with
  | [] => simp [startsTok4, startsTok]
  | [x] => simp [startsTok4, startsTok]
  | x :: y :: rest => simp [startsTok4, startsTok]

theorem isPrefixOf_two_iff {a : Char} {l : List Char} :
    ([a, a].isPrefixOf l) = startsTok a l := by
  match l with
  | [] => rfl
  | [x] => simp [List.isPrefixOf, startsTok]
  | x :: y :: rest =>
    simp only [List.isPrefixOf, startsTok, List.isPrefixOf_nil_left, Bool.and_true]
    rw [Bool.eq_iff_iff]
    simp only [Bool.and_eq_true, beq_iff_eq]
    constructor
    · rintro ⟨h1, h2⟩; exact ⟨h1.symm, h2.symm⟩
    · rintro ⟨h1, h2⟩; exact ⟨h1.symm, h2.symm⟩

theorem isPrefixOf_three_cons {a : Char} {cs : List Char} :
    ([a, a, a].isPrefixOf (a :: cs)) = startsTok a cs := by
  simp only [List.isPrefixOf, BEq.refl, Bool.true_and]
  exact isPrefixOf_two_iff

theorem isPrefixOf_three_imp {a : Char} {l : List Char}
    (h : ([a, a, a] : List Char).isPrefixOf l) : startsTok a l = true := by
  match l with
  | [] => simp [List.isPrefixOf] at h
  | [x] => simp [List.isPrefixOf] at h
  | x :: y :: rest =>
    simp only [List.isPrefixOf, Bool.and_eq_true, beq_iff_eq] at h
    simp [startsTok, h.1.symm, h.2.1.symm]

theorem OkL.not_mem {l : List Char} {p : Char} (h : OkL l) (hp : p ∈ tokenChars) :
    p ∉ l :=
  fun hm => h.2 p hm hp

/-! ## How the chained replacement acts on each template head -/

theorem repl_walk2 {q p : Char} {qs rep cs : List Char} (h : q ≠ p) :
    repl q qs rep (p :: p :: cs) = p :: p :: repl q qs rep cs := by
  rw [repl_cons_neg rep (fun hc => h hc.1), repl_cons_neg rep (fun hc => h hc.1)]

theorem repl_match2 (p : Char) (rep cs : List Char) :
    repl p [p] rep (p :: p :: cs) = rep ++ repl p [p] rep cs := by
  have hpre : ([p] : List Char).isPrefixOf (p :: cs) := by simp [List.isPrefixOf]
  rw [repl_cons_pos rep rfl hpre]
  simp

theorem customReplace_nil (P : Parts) : customReplace P [] = [] :=
  rfl

theorem customReplace_Y4 (P : Parts) (H : OkParts P) (cs : List Char) :
    customReplace P ('Y' :: 'Y' :: 'Y' :: 'Y' :: cs) = P.yr ++ customReplace P cs := by
  obtain ⟨Hy, Hmo, Hdy, Hhr, Hmi, Hse⟩ := H
  unfold customReplace
  rw [repl_cons_pos P.yr rfl (by simp [List.isPrefixOf] :
    (['Y', 'Y', 'Y'] : List Char).isPrefixOf ('Y' :: 'Y' :: 'Y' :: cs))]
  simp only [List.length_cons, List.length_nil, List.drop_succ_cons, List.drop_zero]
  rw [repl_append (Hy.not_mem (by decide : 'Y' ∈ tokenChars)),
    repl_append (Hy.not_mem (by decide : 'M' ∈ tokenChars)),
    repl_append (Hy.not_mem (by decide : 'D' ∈ tokenChars)),
    repl_append (Hy.not_mem (by decide : 'H' ∈ tokenChars)),
    repl_append (Hy.not_mem (by decide : 'm' ∈ tokenChars)),
    repl_append (Hy.not_mem (by decide : 's' ∈ tokenChars))]

theorem customReplace_Y2 (P : Parts) (H : OkParts P) {cs : List Char}
    (h : startsTok 'Y' cs = false) :
    customReplace P ('Y' :: 'Y' :: cs) = lastTwo P.yr ++ customReplace P cs := by
  obtain ⟨Hy, Hmo, Hdy, Hhr, Hmi, Hse⟩ := H
  unfold customReplace
  have c1 : ¬('Y' = 'Y' ∧ (['Y', 'Y', 'Y'] : List Char).isPrefixOf ('Y' :: cs)) := by
    rintro ⟨-, hp⟩
    rw [isPrefixOf_three_cons, h] at hp
    exact Bool.false_ne_true hp
  have c2 : ¬('Y' = 'Y' ∧ (['Y', 'Y', 'Y'] : List Char).isPrefixOf cs) := by
    rintro ⟨-, hp⟩
    rw [isPrefixOf_three_imp hp] at h
    simp at h
  rw [repl_cons_neg P.yr c1, repl_cons_neg P.yr c2]
  rw [repl_cons_pos (lastTwo P.yr) rfl (by simp [List.isPrefixOf] :
    (['Y'] : List Char).isPrefixOf ('Y' :: repl 'Y' ['Y', 'Y', 'Y'] P.yr cs))]
  simp only [List.length_cons, List.length_nil, List.drop_succ_cons, List.drop_zero]
  rw [repl_append ((okL_lastTwo Hy).not_mem (by decide : 'M' ∈ tokenChars)),
    repl_append ((okL_lastTwo Hy).not_mem (by decide : 'D' ∈ tokenChars)),
    repl_append ((okL_lastTwo Hy).not_mem (by decide : 'H' ∈ tokenChars)),
    repl_append ((okL_lastTwo Hy).not_mem (by decide : 'm' ∈ tokenChars)),
    repl_append ((okL_lastTwo Hy).not_mem (by decide : 's' ∈ tokenChars))]

theorem customReplace_MM (P : Parts) (H : OkParts P) (cs : List Char) :
    customReplace P ('M' :: 'M' :: cs) = P.mo ++ customReplace P cs := by
  obtain ⟨Hy, Hmo, Hdy, Hhr, Hmi, Hse⟩ := H
  unfold customReplace
  rw [repl_walk2 (by decide : 'Y' ≠ 'M'), repl_walk2 (by decide : 'Y' ≠ 'M'),
    repl_match2 'M' P.mo]
  rw [repl_append (Hmo.not_mem (by decide : 'D' ∈ tokenChars)),
    repl_append (Hmo.not_mem (by decide : 'H' ∈ tokenChars)),
    repl_append (Hmo.not_mem (by decide : 'm' ∈ tokenChars)),
    repl_append (Hmo.not_mem (by decide : 's' ∈ tokenChars))]

theorem customReplace_DD (P : Parts) (H : OkParts P) (cs : List Char) :
    customReplace P ('D' :: 'D' :: cs) = P.dy ++ customReplace P cs := by
  obtain ⟨Hy, Hmo, Hdy, Hhr, Hmi, Hse⟩ := H
  unfold customReplace
  rw [repl_walk2 (by decide : 'Y' ≠ 'D'), repl_walk2 (by decide : 'Y' ≠ 'D'),
    repl_walk2 (by decide : 'M' ≠ 'D'), repl_match2 'D' P.dy]
  rw [repl_append (Hdy.not_mem (by decide : 'H' ∈ tokenChars)),
    repl_append (Hdy.not_mem (by decide : 'm' ∈ tokenChars)),
    repl_append (Hdy.not_mem (by decide : 's' ∈ tokenChars))]

theorem customReplace_HH (P : Parts) (H : OkParts P) (cs : List Char) :
    customReplace P ('H' :: 'H' :: cs) = P.hr ++ customReplace P cs := by
  obtain ⟨Hy, Hmo, Hdy, Hhr, Hmi, Hse⟩ := H
  unfold customReplace
  rw [repl_walk2 (by decide : 'Y' ≠ 'H'), repl_walk2 (by decide : 'Y' ≠ 'H'),
    repl_walk2 (by decide : 'M' ≠ 'H'), repl_walk2 (by decide : 'D' ≠ 'H'),
    repl_match2 'H' P.hr]
  rw [repl_append (Hhr.not_mem (by decide : 'm' ∈ tokenChars)),
    repl_append (Hhr.not_mem (by decide : 's' ∈ tokenChars))]

theorem customReplace_mm (P : Parts) (H : OkParts P) (cs : List Char) :
    customReplace P ('m' :: 'm' :: cs) = P.mi ++ customReplace P cs := by
  obtain ⟨Hy, Hmo, Hdy, Hhr, Hmi, Hse⟩ := H
  unfold customReplace
  rw [repl_walk2 (by decide : 'Y' ≠ 'm'), repl_walk2 (by decide : 'Y' ≠ 'm'),
    repl_walk2 (by decide : 'M' ≠ 'm'), repl_walk2 (by decide : 'D' ≠ 'm'),
    repl_walk2 (by decide : 'H' ≠ 'm'), repl_match2 'm' P.mi]
  rw [repl_append (Hmi.not_mem (by decide : 's' ∈ tokenChars))]

theorem customReplace_ss (P : Parts) (H : OkParts P) (cs : List Char) :
    customReplace P ('s' :: 's' :: cs) = P.se ++ customReplace P cs := by
  obtain ⟨Hy, Hmo, Hdy, Hhr, Hmi, Hse⟩ := H
  unfold customReplace
  rw [repl_walk2 (by decide : 'Y' ≠ 's'), repl_walk2 (by decide : 'Y' ≠ 's'),
    repl_walk2 (by decide : 'M' ≠ 's'), repl_walk2 (by decide : 'D' ≠ 's'),
    repl_walk2 (by decide : 'H' ≠ 's'), repl_walk2 (by decide : 'm' ≠ 's'),
    repl_match2 's' P.se]

theorem customReplace_cons_noTok (P : Parts) (H : OkParts P) {c : Char}
    {cs : List Char}
    (hY : c = 'Y' → headIs 'Y' cs = false)
    (hM : c = 'M' → headIs 'M' cs = false)
    (hD : c = 'D' → headIs 'D' cs = false)
    (hH : c = 'H' → headIs 'H' cs = false)
    (hm : c = 'm' → headIs 'm' cs = false)
    (hs : c = 's' → headIs 's' cs = false) :
    customReplace P (c :: cs) = c :: customReplace P cs := by
  obtain ⟨Hy, Hmo, Hdy, Hhr, Hmi, Hse⟩ := H
  unfold customReplace
  have n1 : ¬('Y' = c ∧ (['Y', 'Y', 'Y'] : List Char).isPrefixOf cs) := by
    rintro ⟨he, hp⟩
    have h' := isPrefixOf_head hp
    rw [hY he.symm] at h'
    exact Bool.false_ne_true h'
  rw [repl_cons_neg P.yr n1]
  have n2 : ¬('Y' = c ∧
      (['Y'] : List Char).isPrefixOf (repl 'Y' ['Y', 'Y', 'Y'] P.yr cs)) := by
    rintro ⟨he, hp⟩
    have h' := isPrefixOf_head hp
    rw [repl_headIs Hy (by decide) (hY he.symm)] at h'
    exact Bool.false_ne_true h'
  rw [repl_cons_neg (lastTwo P.yr) n2]
  have n3 : ¬('M' = c ∧ (['M'] : List Char).isPrefixOf
      (repl 'Y' ['Y'] (lastTwo P.yr) (repl 'Y' ['Y', 'Y', 'Y'] P.yr cs))) := by
    rintro ⟨he, hp⟩
    have h' := isPrefixOf_head hp
    rw [repl_headIs (okL_lastTwo Hy) (by decide)
      (repl_headIs Hy (by decide) (hM he.symm))] at h'
    exact Bool.false_ne_true h'
  rw [repl_cons_neg P.mo n3]
  have n4 : ¬('D' = c ∧ (['D'] : List Char).isPrefixOf
      (repl 'M' ['M'] P.mo
        (repl 'Y' ['Y'] (lastTwo P.yr) (repl 'Y' ['Y', 'Y', 'Y'] P.yr cs)))) := by
    rintro ⟨he, hp⟩
    have h' := isPrefixOf_head hp
    rw [repl_headIs Hmo (by decide) (repl_headIs (okL_lastTwo Hy) (by decide)
      (repl_headIs Hy (by decide) (hD he.symm)))] at h'
    exact Bool.false_ne_true h'
  rw [repl_cons_neg P.dy n4]
  have n5 : ¬('H' = c ∧ (['H'] : List Char).isPrefixOf
      (repl 'D' ['D'] P.dy (repl 'M' ['M'] P.mo
        (repl 'Y' ['Y'] (lastTwo P.yr) (repl 'Y' ['Y', 'Y', 'Y'] P.yr cs))))) := by
    rintro ⟨he, hp⟩
    have h' := isPrefixOf_head hp
    rw [repl_headIs Hdy (by decide) (repl_headIs Hmo (by decide)
      (repl_headIs (okL_lastTwo Hy) (by decide)
        (repl_headIs Hy (by decide) (hH he.symm))))] at h'
    exact Bool.false_ne_true h'
  rw [repl_cons_neg P.hr n5]
  have n6 : ¬('m' = c ∧ (['m'] : List Char).isPrefixOf
      (repl 'H' ['H'] P.hr (repl 'D' ['D'] P.dy (repl 'M' ['M'] P.mo
        (repl 'Y' ['Y'] (lastTwo P.yr)
          (repl 'Y' ['Y', 'Y', 'Y'] P.yr cs)))))) := by
    rintro ⟨he, hp⟩
    have h' := isPrefixOf_head hp
    rw [repl_headIs Hhr (by decide) (repl_headIs Hdy (by decide)
      (repl_headIs Hmo (by decide) (repl_headIs (okL_lastTwo Hy) (by decide)
        (repl_headIs Hy (by decide) (hm he.symm)))))] at h'
    exact Bool.false_ne_true h'
  rw [repl_cons_neg P.mi n6]
  have n7 : ¬('s' = c ∧ (['s'] : List Char).isPrefixOf
      (repl 'm' ['m'] P.mi (repl 'H' ['H'] P.hr (repl 'D' ['D'] P.dy
        (repl 'M' ['M'] P.mo (repl 'Y' ['Y'] (lastTwo P.yr)
          (repl 'Y' ['Y', 'Y', 'Y'] P.yr cs))))))) := by
    rintro ⟨he, hp⟩
    have h' := isPrefixOf_head hp
    rw [repl_headIs Hmi (by decide) (repl_headIs Hhr (by decide)
      (repl_headIs Hdy (by decide) (repl_headIs Hmo (by decide)
        (repl_headIs (okL_lastTwo Hy) (by decide)
          (repl_headIs Hy (by decide) (hs he.symm))))))] at h'
    exact Bool.false_ne_true h'
  rw [repl_cons_neg P.se n7]

/-! ## Lemmas about the spec-side scanner -/

theorem scanGo_nil (P : Parts) (n : Nat) : scanGo P n [] = [] := by
  cases n <;> rfl

theorem scanGo_congr (P : Parts) :
    ∀ (n : Nat) (l : List Char) (m : Nat), l.length ≤ n → l.length ≤ m →
      scanGo P n l = scanGo P m l := by
  intro n
  induction n with
  | zero =>
    intro l m hn _
    have : l = [] := List.eq_nil_of_length_eq_zero (Nat.le_zero.mp hn)
    subst this
    rw [scanGo_nil, scanGo_nil]
  | succ n ih =>
    intro l m hn hm
    cases l with
    | nil => rw [scanGo_nil, scanGo_nil]
    | cons c cs =>
      obtain ⟨m', rfl⟩ : ∃ m', m = m' + 1 := by
        cases m with
        | zero => simp at hm
        | succ k => exact ⟨k, rfl⟩
      simp only [List.length_cons, Nat.add_le_add_iff_right] at hn hm
      have hb : ∀ k : Nat, (cs.drop k).length ≤ cs.length := by
        intro k; rw [List.length_drop]; omega
      simp only [scanGo]
      split_ifs
      · exact congrArg _ (ih (cs.drop 3) m' (le_trans (hb 3) hn) (le_trans (hb 3) hm))
      · exact congrArg _ (ih (cs.drop 1) m' (le_trans (hb 1) hn) (le_trans (hb 1) hm))
      · exact congrArg _ (ih (cs.drop 1) m' (le_trans (hb 1) hn) (le_trans (hb 1) hm))
      · exact congrArg _ (ih (cs.drop 1) m' (le_trans (hb 1) hn) (le_trans (hb 1) hm))
      · exact congrArg _ (ih (cs.drop 1) m' (le_trans (hb 1) hn) (le_trans (hb 1) hm))
      · exact congrArg _ (ih (cs.drop 1) m' (le_trans (hb 1) hn) (le_trans (hb 1) hm))
      · exact congrArg _ (ih (cs.drop 1) m' (le_trans (hb 1) hn) (le_trans (hb 1) hm))
      · exact congrArg _ (ih cs m' hn hm)

theorem scanSub_nil (P : Parts) : scanSub P [] = [] :=
  rfl

theorem startsTok4_head_ne {a c : Char} (h : c ≠ a) (cs : List Char) :
    startsTok4 a (c :: cs) = false := by
  match cs with
  | [] => rfl
  | [x] => rfl
  | [x, y] => rfl
  | x :: y :: z :: tail => simp [startsTok4, h]

theorem scanSub_Y4 (P : Parts) (rest : List Char) :
    scanSub P ('Y' :: 'Y' :: 'Y' :: 'Y' :: rest) = P.yr ++ scanSub P rest := by
  show scanGo P ('Y' :: 'Y' :: 'Y' :: 'Y' :: rest).length _ = _
  simp only [List.length_cons, scanGo]
  rw [if_pos (by simp [startsTok4] : startsTok4 'Y' ('Y' :: 'Y' :: 'Y' :: 'Y' :: rest) = true)]
  simp only [List.drop_succ_cons, List.drop_zero]
  rw [scanGo_congr P (rest.length + 1 + 1 + 1) rest rest.length (by omega) le_rfl]
  rfl

theorem scanSub_Y2 (P : Parts) {cs : List Char} (h : startsTok 'Y' cs = false) :
    scanSub P ('Y' :: 'Y' :: cs) = lastTwo P.yr ++ scanSub P cs := by
  show scanGo P ('Y' :: 'Y' :: cs).length _ = _
  simp only [List.length_cons, scanGo]
  rw [if_neg (by rw [startsTok4_cons2, h]; exact Bool.false_ne_true)]
  rw [if_pos (by simp [startsTok] : startsTok 'Y' ('Y' :: 'Y' :: cs) = true)]
  simp only [List.drop_succ_cons, List.drop_zero]
  rw [scanGo_congr P (cs.length + 1) cs cs.length (by omega) le_rfl]
  rfl

theorem scanSub_MM (P : Parts) (cs : List Char) :
    scanSub P ('M' :: 'M' :: cs) = P.mo ++ scanSub P cs := by
  show scanGo P ('M' :: 'M' :: cs).length _ = _
  simp only [List.length_cons, scanGo]
  rw [if_neg ((startsTok4_head_ne (by decide : 'M' ≠ 'Y') ('M' :: cs)) ▸ Bool.false_ne_true),
    if_neg (by simp [startsTok] : ¬startsTok 'Y' ('M' :: 'M' :: cs) = true),
    if_pos (by simp [startsTok] : startsTok 'M' ('M' :: 'M' :: cs) = true)]
  simp only [List.drop_succ_cons, List.drop_zero]
  rw [scanGo_congr P (cs.length + 1) cs cs.length (by omega) le_rfl]
  rfl

theorem scanSub_DD (P : Parts) (cs : List Char) :
    scanSub P ('D' :: 'D' :: cs) = P.dy ++ scanSub P cs := by
  show scanGo P ('D' :: 'D' :: cs).length _ = _
  simp only [List.length_cons, scanGo]
  rw [if_neg ((startsTok4_head_ne (by decide : 'D' ≠ 'Y') ('D' :: cs)) ▸ Bool.false_ne_true),
    if_neg (by simp [startsTok] : ¬startsTok 'Y' ('D' :: 'D' :: cs) = true),
    if_neg (by simp [startsTok] : ¬startsTok 'M' ('D' :: 'D' :: cs) = true),
    if_pos (by simp [startsTok] : startsTok 'D' ('D' :: 'D' :: cs) = true)]
  simp only [List.drop_succ_cons, List.drop_zero]
  rw [scanGo_congr P (cs.length + 1) cs cs.length (by omega) le_rfl]
  rfl

theorem scanSub_HH (P : Parts) (cs : List Char) :
    scanSub P ('H' :: 'H' :: cs) = P.hr ++ scanSub P cs := by
  show scanGo P ('H' :: 'H' :: cs).length _ = _
  simp only [List.length_cons, scanGo]
  rw [if_neg ((startsTok4_head_ne (by decide : 'H' ≠ 'Y') ('H' :: cs)) ▸ Bool.false_ne_true),
    if_neg (by simp [startsTok] : ¬startsTok 'Y' ('H' :: 'H' :: cs) = true),
    if_neg (by simp [startsTok] : ¬startsTok 'M' ('H' :: 'H' :: cs) = true),
    if_neg (by simp [startsTok] : ¬startsTok 'D' ('H' :: 'H' :: cs) = true),
    if_pos (by simp [startsTok] : startsTok 'H' ('H' :: 'H' :: cs) = true)]
  simp only [List.drop_succ_cons, List.drop_zero]
  rw [scanGo_congr P (cs.length + 1) cs cs.length (by omega) le_rfl]
  rfl

theorem scanSub_mm (P : Parts) (cs : List Char) :
    scanSub P ('m' :: 'm' :: cs) = P.mi ++ scanSub P cs := by
  show scanGo P ('m' :: 'm' :: cs).length _ = _
  simp only [List.length_cons, scanGo]
  rw [if_neg ((startsTok4_head_ne (by decide : 'm' ≠ 'Y') ('m' :: cs)) ▸ Bool.false_ne_true),
    if_neg (by simp [startsTok] : ¬startsTok 'Y' ('m' :: 'm' :: cs) = true),
    if_neg (by simp [startsTok] : ¬startsTok 'M' ('m' :: 'm' :: cs) = true),
    if_neg (by simp [startsTok] : ¬startsTok 'D' ('m' :: 'm' :: cs) = true),
    if_neg (by simp [startsTok] : ¬startsTok 'H' ('m' :: 'm' :: cs) = true),
    if_pos (by simp [startsTok] : startsTok 'm' ('m' :: 'm' :: cs) = true)]
  simp only [List.drop_succ_cons, List.drop_zero]
  rw [scanGo_congr P (cs.length + 1) cs cs.length (by omega) le_rfl]
  rfl

theorem scanSub_ss (P : Parts) (cs : List Char) :
    scanSub P ('s' :: 's' :: cs) = P.se ++ scanSub P cs := by
  show scanGo P ('s' :: 's' :: cs).length _ = _
  simp only [List.length_cons, scanGo]
  rw [if_neg ((startsTok4_head_ne (by decide : 's' ≠ 'Y') ('s' :: cs)) ▸ Bool.false_ne_true),
    if_neg (by simp [startsTok] : ¬startsTok 'Y' ('s' :: 's' :: cs) = true),
    if_neg (by simp [startsTok] : ¬startsTok 'M' ('s' :: 's' :: cs) = true),
    if_neg (by simp [startsTok] : ¬startsTok 'D' ('s' :: 's' :: cs) = true),
    if_neg (by simp [startsTok] : ¬startsTok 'H' ('s' :: 's' :: cs) = true),
    if_neg (by simp [startsTok] : ¬startsTok 'm' ('s' :: 's' :: cs) = true),
    if_pos (by simp [startsTok] : startsTok 's' ('s' :: 's' :: cs) = true)]
  simp only [List.drop_succ_cons, List.drop_zero]
  rw [scanGo_congr P (cs.length + 1) cs cs.length (by omega) le_rfl]
  rfl

theorem scanSub_cons_noTok (P : Parts) {c : Char} {cs : List Char}
    (h1 : startsTok4 'Y' (c :: cs) = false)
    (h2 : startsTok 'Y' (c :: cs) = false)
    (h3 : startsTok 'M' (c :: cs) = false)
    (h4 : startsTok 'D' (c :: cs) = false)
    (h5 : startsTok 'H' (c :: cs) = false)
    (h6 : startsTok 'm' (c :: cs) = false)
    (h7 : startsTok 's' (c :: cs) = false) :
    scanSub P (c :: cs) = c :: scanSub P cs := by
  show scanGo P (c :: cs).length _ = _
  simp only [List.length_cons, scanGo]
  rw [if_neg (h1 ▸ Bool.false_ne_true), if_neg (h2 ▸ Bool.false_ne_true),
    if_neg (h3 ▸ Bool.false_ne_true), if_neg (h4 ▸ Bool.false_ne_true),
    if_neg (h5 ▸ Bool.false_ne_true), if_neg (h6 ▸ Bool.false_ne_true),
    if_neg (h7 ▸ Bool.false_ne_true)]
  rfl

/-! ## The refinement theorem: chained global replacement equals the
single left-to-right scan, for any token-free nonempty components -/

theorem customReplace_eq_scanSub_aux (P : Parts) (H : OkParts P) :
    ∀ (n : Nat) (t : List Char), t.length ≤ n → customReplace P t = scanSub P t := by
  intro n
  induction n with
  | zero =>
    intro t ht
    have : t = [] := List.eq_nil_of_length_eq_zero (Nat.le_zero.mp ht)
    subst this
    rw [customReplace_nil, scanSub_nil]
  | succ n ih =>
    intro t ht
    rcases t with - | ⟨c, cs⟩
    · rw [customReplace_nil, scanSub_nil]
    · simp only [List.length_cons, Nat.add_le_add_iff_right] at ht
      by_cases h4 : startsTok4 'Y' (c :: cs) = true
      · obtain ⟨rest, he⟩ := startsTok4_shape h4
        have hl : cs.length = rest.length + 3 := by
          have := congrArg List.length he
          simpa using this
        rw [he, customReplace_Y4 P H, scanSub_Y4, ih rest (by omega)]
      · by_cases h2 : startsTok 'Y' (c :: cs) = true
        · obtain ⟨rest, he⟩ := startsTok_shape h2
          have hl : cs.length = rest.length + 1 := by
            have := congrArg List.length he
            simpa using this
          have hr : startsTok 'Y' rest = false := by
            rw [he, startsTok4_cons2] at h4
            exact Bool.not_eq_true _ ▸ h4
          rw [he, customReplace_Y2 P H hr, scanSub_Y2 P hr, ih rest (by omega)]
        · by_cases h3 : startsTok 'M' (c :: cs) = true
          · obtain ⟨rest, he⟩ := startsTok_shape h3
            have hl : cs.length = rest.length + 1 := by
              have := congrArg List.length he
              simpa using this
            rw [he, customReplace_MM P H, scanSub_MM, ih rest (by omega)]
          · by_cases h5 : startsTok 'D' (c :: cs) = true
            · obtain ⟨rest, he⟩ := startsTok_shape h5
              have hl : cs.length = rest.length + 1 := by
                have := congrArg List.length he
                simpa using this
              rw [he, customReplace_DD P H, scanSub_DD, ih rest (by omega)]
            · by_cases h6 : startsTok 'H' (c :: cs) = true
              · obtain ⟨rest, he⟩ := startsTok_shape h6
                have hl : cs.length = rest.length + 1 := by
                  have := congrArg List.length he
                  simpa using this
                rw [he, customReplace_HH P H, scanSub_HH, ih rest (by omega)]
              · by_cases h7 : startsTok 'm' (c :: cs) = true
                · obtain ⟨rest, he⟩ := startsTok_shape h7
                  have hl : cs.length = rest.length + 1 := by
                    have := congrArg List.length he
                    simpa using this
                  rw [he, customReplace_mm P H, scanSub_mm, ih rest (by omega)]
                · by_cases h8 : startsTok 's' (c :: cs) = true
                  · obtain ⟨rest, he⟩ := startsTok_shape h8
                    have hl : cs.length = rest.length + 1 := by
                      have := congrArg List.length he
                      simpa using this
                    rw [he, customReplace_ss P H, scanSub_ss, ih rest (by omega)]
                  · have b4 := Bool.not_eq_true _ ▸ h4
                    have b2 := Bool.not_eq_true _ ▸ h2
                    have b3 := Bool.not_eq_true _ ▸ h3
                    have b5 := Bool.not_eq_true _ ▸ h5
                    have b6 := Bool.not_eq_true _ ▸ h6
                    have b7 := Bool.not_eq_true _ ▸ h7
                    have b8 := Bool.not_eq_true _ ▸ h8
                    rw [customReplace_cons_noTok P H
                      (fun he => by rw [he] at b2; rw [startsTok_cons_self] at b2; exact b2)
                      (fun he => by rw [he] at b3; rw [startsTok_cons_self] at b3; exact b3)
                      (fun he => by rw [he] at b5; rw [startsTok_cons_self] at b5; exact b5)
                      (fun he => by rw [he] at b6; rw [startsTok_cons_self] at b6; exact b6)
                      (fun he => by rw [he] at b7; rw [startsTok_cons_self] at b7; exact b7)
                      (fun he => by rw [he] at b8; rw [startsTok_cons_self] at b8; exact b8),
                      scanSub_cons_noTok P b4 b2 b3 b5 b6 b7 b8, ih cs ht]

theorem customReplace_eq_scanSub (P : Parts) (H : OkParts P) (t : List Char) :
    customReplace P t = scanSub P t :=
  customReplace_eq_scanSub_aux P H t.length t le_rfl

/-! ## Claim theorems -/

/-- Claim C8: the `iso` selector returns the UTC calendar-and-time
rendering with millisecond precision for every instant, ignores the
timezone field entirely, and produces `"2024-01-15T10:30:00.000Z"` for
the instant 1705314600000 ms. -/
theorem iso_utc_millisecond :
    (∀ (cfg : Config) (db : TzDB) (ms : Int) (tz : String),
      formatDateTime cfg db ms "iso" tz = Except.ok (isoString ms)) ∧
    (∀ (cfg : Config) (db : TzDB) (ms : Int) (tz tz' : String),
      formatDateTime cfg db ms "iso" tz = formatDateTime cfg db ms "iso" tz') ∧
    isoString 1705314600000 = "2024-01-15T10:30:00.000Z" := by
  refine ⟨fun cfg db ms tz => rfl, fun cfg db ms tz tz' => rfl, ?_⟩
  decide

/-- Claim C2: any format selector outside the known enumeration renders
exactly as `iso` would, successfully, for every instant and timezone. -/
theorem unknown_selector_falls_back_to_iso (cfg : Config) (db : TzDB) (ms : Int)
    (tz fmt : String)
    (h1 : fmt ≠ "iso") (h2 : fmt ≠ "unix") (h3 : fmt ≠ "unix_ms")
    (h4 : fmt ≠ "human") (h5 : fmt ≠ "date") (h6 : fmt ≠ "time")
    (h7 : fmt ≠ "custom") :
    formatDateTime cfg db ms fmt tz = formatDateTime cfg db ms "iso" tz ∧
    formatDateTime cfg db ms fmt tz = Except.ok (isoString ms) := by
  have he : formatDateTime cfg db ms fmt tz = Except.ok (isoString ms) := by
    unfold formatDateTime
    rw [if_neg h1, if_neg h2, if_neg h3, if_neg h4, if_neg h5, if_neg h6, if_neg h7]
  exact ⟨he, he⟩

/-- Witness for C2 at the spec's literal scenario selector. -/
theorem unknown_selector_falls_back_to_iso_witness :
    formatDateTime cfg0 sampleDb 1705314600000 "bogus-value" "UTC" =
      formatDateTime cfg0 sampleDb 1705314600000 "iso" "UTC" :=
  (unknown_selector_falls_back_to_iso cfg0 sampleDb 1705314600000 "UTC"
    "bogus-value" (by decide) (by decide) (by decide) (by decide) (by decide)
    (by decide) (by decide)).1

/-- Claim C4 (counterexample): at the pre-epoch instant −1500 ms the
`unix` selector renders `"-2"` (floor), not the `"-1"` that truncation
toward zero would give. -/
theorem unix_truncation_counterexample :
    formatDateTime cfg0 sampleDb (-1500) "unix" "UTC" = Except.ok "-2" ∧
    intToString (Int.tdiv (-1500) 1000) = "-1" ∧
    ("-2" : String) ≠ "-1" :=
  ⟨rfl, rfl, by decide⟩

/-- Claim C4 (amended): the `unix` selector renders the floor (toward
negative infinity) of the millisecond count divided by 1000, which
agrees with truncation toward zero for instants at or after the epoch. -/
theorem unix_floor_seconds (cfg : Config) (db : TzDB) (ms : Int) (tz : String) :
    formatDateTime cfg db ms "unix" tz =
      Except.ok (intToString (Int.fdiv ms 1000)) ∧
    (0 ≤ ms → Int.fdiv ms 1000 = Int.tdiv ms 1000) := by
  refine ⟨rfl, fun h => ?_⟩
  rw [Int.fdiv_eq_ediv ms (by decide : (0 : Int) ≤ 1000),
    Int.tdiv_eq_ediv h (by decide : (0 : Int) ≤ 1000)]

/-- Witness for C4's amended statement at a nonnegative instant. -/
theorem unix_floor_seconds_witness :
    formatDateTime cfg0 sampleDb 1705314600123 "unix" "UTC" =
      Except.ok (intToString (Int.fdiv 1705314600123 1000)) ∧
    Int.fdiv 1705314600123 1000 = Int.tdiv 1705314600123 1000 :=
  ⟨(unix_floor_seconds cfg0 sampleDb 1705314600123 "UTC").1,
    (unix_floor_seconds cfg0 sampleDb 1705314600123 "UTC").2 (by decide)⟩

/-- Claim C5: for the same instant, `unix` renders the floor of the
number rendered by `unix_ms` divided by 1000, and on an exact second
boundary `unix_ms` renders exactly 1000 times the `unix` number. -/
theorem unix_unixms_relation (cfg : Config) (db : TzDB) (ms : Int) (tz : String) :
    ∃ u : Int,
      formatDateTime cfg db ms "unix" tz = Except.ok (intToString u) ∧
      formatDateTime cfg db ms "unix_ms" tz = Except.ok (intToString ms) ∧
      u = Int.fdiv ms 1000 ∧
      (Int.emod ms 1000 = 0 → ms = u * 1000) := by
  refine ⟨Int.fdiv ms 1000, rfl, rfl, rfl, fun h => ?_⟩
  have h' : ms % 1000 = 0 := h
  rw [Int.fdiv_eq_ediv ms (by decide : (0 : Int) ≤ 1000)]
  show ms = ms / 1000 * 1000
  omega

/-- Witness for C5 at a second-boundary instant. -/
theorem unix_unixms_relation_witness :
    ∃ u : Int,
      formatDateTime cfg0 sampleDb 1705314600000 "unix" "UTC" =
        Except.ok (intToString u) ∧
      formatDateTime cfg0 sampleDb 1705314600000 "unix_ms" "UTC" =
        Except.ok (intToString 1705314600000) ∧
      u = Int.fdiv 1705314600000 1000 ∧
      1705314600000 = u * 1000 := by
  obtain ⟨u, e1, e2, e3, e4⟩ :=
    unix_unixms_relation cfg0 sampleDb 1705314600000 "UTC"
  exact ⟨u, e1, e2, e3, e4 (by decide)⟩

/-- Claim C10: `get_timestamp` never errors; it renders the raw
millisecond count exactly when the `unit` argument is
`"milliseconds"`, and otherwise (absent, `"seconds"`, or anything
else) the floor of the milliseconds divided by 1000. -/
theorem timestamp_unit_behavior (ms : Int) (args : Option TimestampArgs) :
    (handleGetTimestamp ms args).isError = false ∧
    (args.bind TimestampArgs.unit = some "milliseconds" →
      (handleGetTimestamp ms args).text = intToString ms) ∧
    (args.bind TimestampArgs.unit ≠ some "milliseconds" →
      (handleGetTimestamp ms args).text = intToString (Int.fdiv ms 1000)) := by
  refine ⟨rfl, ?_, ?_⟩
  · intro h
    unfold handleGetTimestamp
    rw [h]
    rfl
  · intro h
    unfold handleGetTimestamp
    cases hu : args.bind TimestampArgs.unit with
    | none => rfl
    | some u =>
      rw [hu] at h
      have hne : u ≠ "milliseconds" := fun he => h (he ▸ rfl)
      show ToolResult.text
        { text := intToString (if jsOr (some u) "seconds" = "milliseconds"
            then ms else Int.fdiv ms 1000), isError := false } = _
      by_cases he : u = ""
      · simp [jsOr, he]
      · simp [jsOr, he, hne]

/-- Witness for C10 in both unit modes. -/
theorem timestamp_unit_behavior_witness :
    (handleGetTimestamp 1705314600123 (some ⟨some "milliseconds", []⟩)).text =
      intToString 1705314600123 ∧
    (handleGetTimestamp 1705314600123 none).text =
      intToString (Int.fdiv 1705314600123 1000) :=
  ⟨(timestamp_unit_behavior 1705314600123 (some ⟨some "milliseconds", []⟩)).2.1 rfl,
    (timestamp_unit_behavior 1705314600123 none).2.2 (by decide)⟩

/-- Classification of every `formatDateTime` call: it fails (with the
timezone error) exactly when the selector consults the timezone and the
identifier does not resolve; otherwise it succeeds. -/
theorem fdt_classify (cfg : Config) (db : TzDB) (ms : Int) (fmt tz : String) :
    (tzConsulting fmt ∧ db tz = none ∧
      formatDateTime cfg db ms fmt tz = Except.error (invalidTzMsg tz)) ∨
    (¬(tzConsulting fmt ∧ db tz = none) ∧
      ∃ s, formatDateTime cfg db ms fmt tz = Except.ok s) := by
  by_cases h1 : fmt = "iso"
  · right
    refine ⟨?_, isoString ms, by subst h1; rfl⟩
    rintro ⟨hc, -⟩
    subst h1
    rcases hc with h | h | h | h <;> simp at h
  by_cases h2 : fmt = "unix"
  · right
    refine ⟨?_, intToString (Int.fdiv ms 1000), by subst h2; rfl⟩
    rintro ⟨hc, -⟩
    subst h2
    rcases hc with h | h | h | h <;> simp at h
  by_cases h3 : fmt = "unix_ms"
  · right
    refine ⟨?_, intToString ms, by subst h3; rfl⟩
    rintro ⟨hc, -⟩
    subst h3
    rcases hc with h | h | h | h <;> simp at h
  by_cases h4 : fmt = "human"
  · subst h4
    cases hdb : db tz with
    | none =>
      left
      refine ⟨Or.inl rfl, rfl, ?_⟩
      show (resolveTz db tz).map (fun r => humanString r ms) = _
      rw [resolveTz, hdb]
      rfl
    | some r =>
      right
      refine ⟨?_, humanString r ms, ?_⟩
      · rintro ⟨-, hn⟩; exact Option.noConfusion hn
      · show (resolveTz db tz).map (fun r => humanString r ms) = _
        rw [resolveTz, hdb]
        rfl
  by_cases h5 : fmt = "date"
  · subst h5
    cases hdb : db tz with
    | none =>
      left
      refine ⟨Or.inr (Or.inl rfl), rfl, ?_⟩
      show (resolveTz db tz).map (fun r => dateString r ms) = _
      rw [resolveTz, hdb]
      rfl
    | some r =>
      right
      refine ⟨?_, dateString r ms, ?_⟩
      · rintro ⟨-, hn⟩; exact Option.noConfusion hn
      · show (resolveTz db tz).map (fun r => dateString r ms) = _
        rw [resolveTz, hdb]
        rfl
  by_cases h6 : fmt = "time"
  · subst h6
    cases hdb : db tz with
    | none =>
      left
      refine ⟨Or.inr (Or.inr (Or.inl rfl)), rfl, ?_⟩
      show (resolveTz db tz).map (fun r => timeString r ms) = _
      rw [resolveTz, hdb]
      rfl
    | some r =>
      right
      refine ⟨?_, timeString r ms, ?_⟩
      · rintro ⟨-, hn⟩; exact Option.noConfusion hn
      · show (resolveTz db tz).map (fun r => timeString r ms) = _
        rw [resolveTz, hdb]
        rfl
  by_cases h7 : fmt = "custom"
  · subst h7
    cases hdb : db tz with
    | none =>
      left
      refine ⟨Or.inr (Or.inr (Or.inr rfl)), rfl, ?_⟩
      show (resolveTz db tz).map
        (fun r => customRender r ms (DATE_FORMAT_STRING cfg)) = _
      rw [resolveTz, hdb]
      rfl
    | some r =>
      right
      refine ⟨?_, customRender r ms (DATE_FORMAT_STRING cfg), ?_⟩
      · rintro ⟨-, hn⟩; exact Option.noConfusion hn
      · show (resolveTz db tz).map
          (fun r => customRender r ms (DATE_FORMAT_STRING cfg)) = _
        rw [resolveTz, hdb]
        rfl
  · right
    constructor
    · rintro ⟨hc, -⟩
      rcases hc with h | h | h | h
      exacts [h4 h, h5 h, h6 h, h7 h]
    · refine ⟨isoString ms, ?_⟩
      unfold formatDateTime
      rw [if_neg h1, if_neg h2, if_neg h3, if_neg h4, if_neg h5, if_neg h6,
        if_neg h7]

/-- Claim C3: formatting fails exactly when the selector consults the
timezone (`human`, `date`, `time`, `custom`) and the identifier is not
in the runtime's database; the failure carries the underlying cause,
which the handler wraps in its descriptive message; `iso`, `unix`, and
`unix_ms` succeed regardless of timezone validity. -/
theorem formatDateTime_failure_characterization (cfg : Config) (db : TzDB)
    (ms : Int) (fmt tz : String) :
    ((∃ s, formatDateTime cfg db ms fmt tz = Except.ok s) ↔
      ¬(db tz = none ∧ tzConsulting fmt)) ∧
    (db tz = none → tzConsulting fmt →
      formatDateTime cfg db ms fmt tz = Except.error (invalidTzMsg tz)) ∧
    (∀ args : Option CallArgs,
      ((handleGetCurrentTime cfg db ms args).isError = true ↔
        (db (resolveTimezone cfg args) = none ∧
          tzConsulting (resolveFormat cfg args))) ∧
      (db (resolveTimezone cfg args) = none →
        tzConsulting (resolveFormat cfg args) →
        (handleGetCurrentTime cfg db ms args).text =
          "Error formatting date: " ++ invalidTzMsg (resolveTimezone cfg args))) := by
  refine ⟨?_, ?_, ?_⟩
  · rcases fdt_classify cfg db ms fmt tz with ⟨hc, hn, he⟩ | ⟨hnot, s, hok⟩
    · constructor
      · rintro ⟨s, hs⟩
        rw [he] at hs
        exact absurd hs (by simp)
      · intro habs
        exact absurd ⟨hn, hc⟩ habs
    · constructor
      · rintro - ⟨hn, hc⟩
        exact hnot ⟨hc, hn⟩
      · intro _
        exact ⟨s, hok⟩
  · intro hn hc
    rcases fdt_classify cfg db ms fmt tz with ⟨-, -, he⟩ | ⟨hnot, -, -⟩
    · exact he
    · exact absurd ⟨hc, hn⟩ hnot
  · intro args
    rcases fdt_classify cfg db ms (resolveFormat cfg args)
      (resolveTimezone cfg args) with ⟨hc, hn, he⟩ | ⟨hnot, s, hok⟩
    · constructor
      · have ht : handleGetCurrentTime cfg db ms args =
            { text := "Error formatting date: " ++
                invalidTzMsg (resolveTimezone cfg args), isError := true } := by
          unfold handleGetCurrentTime
          rw [he]
        constructor
        · intro _; exact ⟨hn, hc⟩
        · intro _; rw [ht]
      · intro _ _
        have ht : handleGetCurrentTime cfg db ms args =
            { text := "Error formatting date: " ++
                invalidTzMsg (resolveTimezone cfg args), isError := true } := by
          unfold handleGetCurrentTime
          rw [he]
        rw [ht]
    · have ht : handleGetCurrentTime cfg db ms args =
          { text := s, isError := false } := by
        unfold handleGetCurrentTime
        rw [hok]
      constructor
      · rw [ht]
        constructor
        · intro habs; exact absurd habs (by simp)
        · rintro ⟨hn, hc⟩; exact absurd ⟨hc, hn⟩ hnot
      · rintro hn hc
        exact absurd ⟨hc, hn⟩ hnot

/-- Witness for C3: the spec's `Not/AZone` scenario fails for `human`
with the wrapped cause, and `unix` is unaffected. -/
theorem formatDateTime_failure_characterization_witness :
    formatDateTime cfg0 sampleDb 0 "human" "Not/AZone" =
      Except.error (invalidTzMsg "Not/AZone") ∧
    (∃ s, formatDateTime cfg0 sampleDb 0 "unix" "Not/AZone" = Except.ok s) := by
  constructor
  · exact (formatDateTime_failure_characterization cfg0 sampleDb 0 "human"
      "Not/AZone").2.1 rfl (Or.inl rfl)
  · exact (formatDateTime_failure_characterization cfg0 sampleDb 0 "unix"
      "Not/AZone").1.mpr (by rintro ⟨-, h | h | h | h⟩ <;> simp at h)

/-- The source's two-layer `||` chain coincides with the spec's
three-layer "present and non-empty" precedence description. -/
theorem jsOr_layered (a e : Option String) (fb : String) :
    jsOr a (jsOr e fb) = layeredSpec a e fb := by
  cases a with
  | none =>
    cases e with
    | none => rfl
    | some s =>
      by_cases h : s = "" <;> simp [jsOr, layeredSpec, h]
  | some s =>
    by_cases h : s = ""
    · cases e with
      | none => simp [jsOr, layeredSpec, h]
      | some t => by_cases ht : t = "" <;> simp [jsOr, layeredSpec, h, ht]
    · simp [jsOr, layeredSpec, h]

/-- Claim C6: each effective field is resolved per-call value first (when
present and non-empty), then environment default, then built-in
fallback (`"iso"`, the host's local timezone, `"YYYY-MM-DD HH:mm:ss"`);
resolution never inspects the values beyond emptiness. -/
theorem resolution_layered (cfg : Config) (args : Option CallArgs) :
    resolveFormat cfg args =
      layeredSpec (args.bind CallArgs.format) cfg.envDatetimeFormat "iso" ∧
    resolveTimezone cfg args =
      layeredSpec (args.bind CallArgs.timezone) cfg.envTimezone cfg.hostTimezone ∧
    DATE_FORMAT_STRING cfg =
      layeredSpec none cfg.envDateFormatString "YYYY-MM-DD HH:mm:ss" :=
  ⟨jsOr_layered _ _ _, jsOr_layered _ _ _, jsOr_layered none _ _⟩

/-! ## Width of rendered decimal fields -/

theorem natToDigits_of_lt_ten {n : Nat} (h : n < 10) :
    natToDigits n = [Nat.digitChar n] := by
  show natDigitsGo (n + 1) n [] = _
  simp only [natDigitsGo]
  rw [Nat.mod_eq_of_lt h, if_pos (Nat.div_eq_of_lt h)]

theorem natToDigits_length_two {n : Nat} (h1 : 10 ≤ n) (h2 : n < 100) :
    (natToDigits n).length = 2 := by
  obtain ⟨m, rfl⟩ : ∃ m, n = m + 1 := ⟨n - 1, by omega⟩
  show (natDigitsGo (m + 1 + 1) (m + 1) []).length = 2
  have hd0 : ¬(m + 1) / 10 = 0 := by omega
  have hlt : (m + 1) / 10 < 10 := by omega
  simp only [natDigitsGo]
  rw [if_neg hd0, if_pos (Nat.div_eq_of_lt hlt)]
  rfl

theorem pad2L_length {n : Nat} (h : n < 100) : (pad2L n).length = 2 := by
  have hl : (natToDigits n).length = 1 ∨ (natToDigits n).length = 2 := by
    by_cases h10 : n < 10
    · left; rw [natToDigits_of_lt_ten h10]; rfl
    · right; exact natToDigits_length_two (by omega) h
  rw [pad2L, padZero, List.length_append, List.length_replicate]
  omega

/-- Claim C7: the string substituted for the `HH` token is the
two-digit zero-padded hour of the instant in the target timezone, the
hour itself lies below 24, midnight renders as `"00"`, and `"24"` is
never produced. -/
theorem custom_hour_range (rules : TzRules) (ms : Int) :
    (partsOf rules ms).hr = pad2L (localHour rules ms) ∧
    localHour rules ms < 24 ∧
    ((partsOf rules ms).hr).length = 2 ∧
    (localHour rules ms = 0 → (partsOf rules ms).hr = ['0', '0']) ∧
    (partsOf rules ms).hr ≠ ['2', '4'] ∧
    customRender rules ms "HH" = String.mk ((partsOf rules ms).hr) := by
  have hhr : (partsOf rules ms).hr = pad2L (localHour rules ms) := rfl
  have hh : localHour rules ms < 24 := by
    show (Int.emod (ms + rules.offset ms) 86400000).toNat / 3600000 < 24
    have hnn : 0 ≤ Int.emod (ms + rules.offset ms) 86400000 :=
      Int.emod_nonneg _ (by decide)
    have hlt : Int.emod (ms + rules.offset ms) 86400000 < 86400000 :=
      Int.emod_lt_of_pos _ (by decide)
    omega
  refine ⟨hhr, hh, ?_, ?_, ?_, ?_⟩
  · rw [hhr]; exact pad2L_length (by omega)
  · intro h0; rw [hhr, h0]; decide
  · rw [hhr]
    have hb := hh
    interval_cases (localHour rules ms) <;> decide
  · have hlist : ("HH" : String).toList = ['H', 'H'] := rfl
    rw [customRender, hlist, customReplace_HH _ (okParts_partsOf rules ms),
      customReplace_nil, List.append_nil]

/-- Witness for C7: midnight UTC renders hour `"00"`. -/
theorem custom_hour_range_witness :
    localHour utcRules 0 = 0 ∧ (partsOf utcRules 0).hr = ['0', '0'] ∧
    customRender utcRules 0 "HH" = "00" := by
  have h := custom_hour_range utcRules 0
  have h0 : localHour utcRules 0 = 0 := by decide
  have hhr := h.2.2.2.1 h0
  refine ⟨h0, hhr, ?_⟩
  rw [h.2.2.2.2.2, hhr]

/-- Claim C9: two `custom` requests with the same per-call `format` and
`timezone` fields produce identical results whatever additional fields
their argument records carry; the template rendered is the process-wide
configured one. -/
theorem custom_template_noninterference (cfg : Config) (db : TzDB) (ms : Int)
    (f t : Option String) (e1 e2 : List (String × String))
    (hfmt : resolveFormat cfg (some ⟨f, t, e1⟩) = "custom") :
    handleGetCurrentTime cfg db ms (some ⟨f, t, e1⟩) =
      handleGetCurrentTime cfg db ms (some ⟨f, t, e2⟩) ∧
    (∀ rules, db (resolveTimezone cfg (some ⟨f, t, e1⟩)) = some rules →
      (handleGetCurrentTime cfg db ms (some ⟨f, t, e1⟩)).text =
        customRender rules ms (DATE_FORMAT_STRING cfg)) := by
  constructor
  · rfl
  · intro rules hdb
    unfold handleGetCurrentTime
    rw [hfmt]
    have hfd : formatDateTime cfg db ms "custom"
        (resolveTimezone cfg (some ⟨f, t, e1⟩)) =
        Except.ok (customRender rules ms (DATE_FORMAT_STRING cfg)) := by
      show (resolveTz db _).map _ = _
      rw [resolveTz, hdb]
      rfl
    rw [hfd]

/-- Witness for C9: an extra `format_string`-like argument field does
not change the output. -/
theorem custom_template_noninterference_witness :
    resolveFormat cfgCustom (some ⟨none, none, [("format_string", "DDDD")]⟩) =
      "custom" ∧
    handleGetCurrentTime cfgCustom sampleDb 5
        (some ⟨none, none, [("format_string", "DDDD")]⟩) =
      handleGetCurrentTime cfgCustom sampleDb 5 (some ⟨none, none, []⟩) :=
  ⟨rfl, (custom_template_noninterference cfgCustom sampleDb 5 none none
    [("format_string", "DDDD")] [] rfl).1⟩

/-- Claim C1 (amended): the chained global replacement of
`formatCustomDate` coincides, for every instant, timezone rules and
template, with a single left-to-right scan that replaces each token
occurrence (`YYYY` before `YY`) by the corresponding component and
copies every other character verbatim; the spec's literal custom
scenario holds. -/
theorem custom_scan_refinement :
    (∀ (rules : TzRules) (ms : Int) (fs : String),
      customRender rules ms fs = String.mk (scanSub (partsOf rules ms) fs.toList)) ∧
    customRender utcRules 1705314600000 "YYYY/MM/DD HH:mm" = "2024/01/15 10:30" := by
  constructor
  · intro rules ms fs
    rw [customRender, customReplace_eq_scanSub _ (okParts_partsOf rules ms)]
  · decide

/-- Claim C1 (counterexample): at an instant in year 10000 the `YYYY`
token is replaced by the five-character year rendering `"10000"`, so
the substituted component is not a four-digit year. -/
theorem custom_year_width_counterexample :
    customRender utcRules 253402300800000 "YYYY" = "10000" ∧
    ¬(customRender utcRules 253402300800000 "YYYY").length = 4 := by
  constructor <;> decide

end DatetimeServer
